import Mathlib

/-!
Verification development for the Gaussian-splat PLY viewer.

The binary PLY decoder (`parsePlyFile`) is embedded byte-for-byte as
functions over `List Nat` (one entry per byte).  The header is scanned the
way the source scans it: decode the first 5000 bytes as a 1-byte-per-char
text chunk, split on newline bytes, trim each line, and fold the format /
element / property updates over the lines.  Binary records are read with an
explicit cursor, recording for each float property its name and its raw
32-bit little-endian pattern; the IEEE-754 interpretation and the
name-keyed attribute transforms (exp, logistic, SH0-to-RGB) are applied in
a second layer over the reals.  The orbit-camera interaction handlers are
embedded as a step function on an explicit camera-plus-drag state, with
real-valued coordinates standing in for IEEE doubles.
-/

namespace GSplat

/-- Byte string of an ASCII literal: one `Nat` per character. -/
def ascii (s : String) : List Nat := s.toList.map Char.toNat

/-- Bytes that the JS `String.prototype.trim` removes after a
windows-1252 ("ascii") decode: tab, LF, VT, FF, CR, space, NBSP. -/
def isWsByte (b : Nat) : Bool :=
  b = 9 || b = 10 || b = 11 || b = 12 || b = 13 || b = 32 || b = 160

/-- JS `line.trim()` on a decoded byte string. -/
def trimBytes (l : List Nat) : List Nat :=
  ((l.dropWhile isWsByte).reverse.dropWhile isWsByte).reverse

/-- JS `s.startsWith(pat)` on byte strings. -/
def startsW (l pat : List Nat) : Bool := pat.isPrefixOf l

/-- JS `s.includes(pat)` on byte strings. -/
def containsSub : List Nat → List Nat → Bool
  | [], pat => pat.isEmpty
  | l@(_ :: t), pat => pat.isPrefixOf l || containsSub t pat

/-- JS `s.split(sep)` for a one-character separator: empty pieces are
kept, and the result is never the empty list. -/
def splitOnByte (sep : Nat) : List Nat → List (List Nat)
  | [] => [[]]
  | b :: t =>
    if b = sep then [] :: splitOnByte sep t
    else
      match splitOnByte sep t with
      | h :: r => (b :: h) :: r
      | [] => [[b]]

/-- JS `lines.join(sep)` for the one-byte newline separator, as used to
rebuild the exact consumed header text. -/
def joinNl : List (List Nat) → List Nat
  | [] => []
  | [x] => x
  | x :: y :: r => x ++ 10 :: joinNl (y :: r)

/-- Value of a leading run of decimal digits, most significant first. -/
def leadDigits : List Nat → Nat → Nat
  | [], acc => acc
  | b :: t, acc =>
    if 48 ≤ b && b ≤ 57 then leadDigits t (acc * 10 + (b - 48)) else acc

/-- JS `parseInt(s, 10)` restricted to the shapes the decoder meets:
leading whitespace is skipped, then a run of decimal digits is read.
`none` models the `NaN` result (no digits); signs are not modelled, the
claims only involve plain decimal vertex counts. -/
def jsParseIntNat (l : List Nat) : Option Nat :=
  match l.dropWhile isWsByte with
  | b :: t =>
    if 48 ≤ b && b ≤ 57 then some (leadDigits (b :: t) 0) else none
  | [] => none

/-- One `property <type> <name>` header line, in file order
(`parsePlyFile`, the `properties` array). -/
structure Property where
  ptype : List Nat
  pname : List Nat
deriving DecidableEq, Repr

/-- Mutable locals of the header loop of `parsePlyFile`:
`headerOffset`, `vertexCount`, `isBinary`, `inVertexElement`,
`properties`, and whether `end_header` was reached. -/
structure ScanState where
  offset : Nat
  vertexCount : Nat
  isBinary : Bool
  inVertexElement : Bool
  props : List Property
  foundEnd : Bool
deriving DecidableEq, Repr

/-- The exceptions the decoder can raise.  `unsupportedFormat` is the
throw `Unsupported PLY format. Must be binary_little_endian 1.0`,
`notBinary` is the throw `PLY file is not binary.`, and `rangeError` is
the `RangeError` a `DataView.getFloat32` past the end of the buffer
raises.  The source has no malformed-header throw. -/
inductive PlyError where
  | unsupportedFormat
  | notBinary
  | rangeError
deriving DecidableEq, Repr

/-- The error taxonomy of the spec files both format-related throws
(missing or non-little-endian `format` line) under `UnsupportedFormat`. -/
def PlyError.isFormatError : PlyError → Bool
  | .unsupportedFormat => true
  | .notBinary => true
  | .rangeError => false

instance {e a : Type} [DecidableEq e] [DecidableEq a] : DecidableEq (Except e a) :=
  fun x y =>
    match x, y with
    | .ok u, .ok v =>
      if h : u = v then .isTrue (by rw [h]) else .isFalse (by simp [h])
    | .error u, .error v =>
      if h : u = v then .isTrue (by rw [h]) else .isFalse (by simp [h])
    | .ok _, .error _ => .isFalse (by simp)
    | .error _, .ok _ => .isFalse (by simp)

/-- Body of one header-loop iteration of `parsePlyFile` after the
`end_header` check: the `format` test (which may throw), then the
`element` tests, then the `property` test, applied to the trimmed line. -/
def lineUpdate (st : ScanState) (line : List Nat) : Except PlyError ScanState :=
  let fmt : Except PlyError ScanState :=
    if startsW line (ascii "format") then
      if containsSub line (ascii "binary_little_endian 1.0") then
        Except.ok { st with isBinary := true }
      else Except.error PlyError.unsupportedFormat
    else Except.ok st
  match fmt with
  | Except.error e => Except.error e
  | Except.ok stA =>
    let stB :=
      if startsW line (ascii "element vertex") then
        { stA with
            vertexCount := (jsParseIntNat ((splitOnByte 32 line).getD 2 [])).getD 0
            inVertexElement := true }
      else if startsW line (ascii "element") && !containsSub line (ascii "vertex") then
        { stA with inVertexElement := false }
      else stA
    let stC :=
      if stB.inVertexElement && startsW line (ascii "property") then
        { stB with
            props := stB.props ++
              [⟨(splitOnByte 32 line).getD 1 [], (splitOnByte 32 line).getD 2 []⟩] }
      else stB
    Except.ok stC

/-- The header loop of `parsePlyFile`.  `consumed` is the list of raw
lines already passed (needed to rebuild the exact header text at the
`end_header` break, rebuilt by joining the raw lines with a newline and
appending one more newline);
before the break check each iteration adds the approximate
`line.length + 1` of the trimmed line to the running offset. -/
def scanLines : List (List Nat) → List (List Nat) → ScanState → Except PlyError ScanState
  | _, [], st => Except.ok st
  | consumed, raw :: rest, st =>
    let line := trimBytes raw
    let st1 := { st with offset := st.offset + line.length + 1 }
    if line = ascii "end_header" then
      Except.ok { st1 with offset := (joinNl (consumed ++ [raw])).length + 1, foundEnd := true }
    else
      match lineUpdate st1 line with
      | Except.error e => Except.error e
      | Except.ok st2 => scanLines (consumed ++ [raw]) rest st2

/-- The header lines: the first 5000 bytes decoded one byte per char and
split on newlines, as the text decoder and the split call produce it. -/
def linesOf (file : List Nat) : List (List Nat) := splitOnByte 10 (file.take 5000)

/-- Header scan of `parsePlyFile` from its initial locals. -/
def parseHeader (file : List Nat) : Except PlyError ScanState :=
  scanLines [] (linesOf file)
    { offset := 0, vertexCount := 0, isBinary := false
      inVertexElement := false, props := [], foundEnd := false }

/-- Requirement FR-PLY-150 cap from the source. -/
def MAX_VERTEX_COUNT : Nat := 1000000

/-- The two type spellings the source decodes as a 4-byte float. -/
def isFloatType (t : List Nat) : Bool :=
  t = ascii "float" || t = ascii "float32"

/-- Bytes skipped for a non-float property (`uchar`/`uint8` one byte,
`int`/`int32` four, `double` eight, anything else none — the known
unknown-type gap of the source). -/
def propWidth (t : List Nat) : Nat :=
  if t = ascii "uchar" || t = ascii "uint8" then 1
  else if t = ascii "int" || t = ascii "int32" then 4
  else if t = ascii "double" then 8
  else 0

/-- Cursor advance one property causes inside a record. -/
def propAdvance (p : Property) : Nat :=
  if isFloatType p.ptype then 4 else propWidth p.ptype

/-- Total byte width of one vertex record under the schema. -/
def recordStride : List Property → Nat
  | [] => 0
  | p :: r => propAdvance p + recordStride r

/-- The 32-bit pattern `dataView.getFloat32(o, true)` reads: four bytes
starting at `o`, least significant first. -/
def read4LE (file : List Nat) (o : Nat) : Nat :=
  file.getD o 0 + file.getD (o + 1) 0 * 256 +
    file.getD (o + 2) 0 * 65536 + file.getD (o + 3) 0 * 16777216

/-- Inner property loop of `parsePlyFile` for one vertex: float
properties must have all four bytes inside the buffer (`getFloat32` past
the end raises a `RangeError`) and are recorded as (name, raw pattern);
other properties only advance the cursor. -/
def readRecord (file : List Nat) : List Property → Nat → Except PlyError (List (List Nat × Nat) × Nat)
  | [], o => Except.ok ([], o)
  | p :: rest, o =>
    if isFloatType p.ptype then
      if o + 4 ≤ file.length then
        match readRecord file rest (o + 4) with
        | Except.error e => Except.error e
        | Except.ok (ps, o2) => Except.ok ((p.pname, read4LE file o) :: ps, o2)
      else Except.error PlyError.rangeError
    else readRecord file rest (o + propWidth p.ptype)

/-- Outer vertex loop of `parsePlyFile`: up to `renderCount` records are
read, and a record whose start offset is at or past the end of the buffer
stops the loop (`if (byteOffset >= buffer.byteLength) break`). -/
def readRecords (file : List Nat) (props : List Property) : Nat → Nat → Except PlyError (List (List (List Nat × Nat)))
  | 0, _ => Except.ok []
  | Nat.succ n, o =>
    if file.length ≤ o then Except.ok []
    else
      match readRecord file props o with
      | Except.error e => Except.error e
      | Except.ok (ps, o2) =>
        match readRecords file props n o2 with
        | Except.error e => Except.error e
        | Except.ok rest => Except.ok (ps :: rest)

/-- Structural result of `parsePlyFile` before the float transforms:
exact header offset, declared and capped vertex counts, schema, and per
processed vertex the (name, raw float pattern) pairs in schema order. -/
structure RawParse where
  headerOffset : Nat
  declaredCount : Nat
  renderCount : Nat
  props : List Property
  records : List (List (List Nat × Nat))
deriving DecidableEq, Repr

/-- Byte-level run of `parsePlyFile`: scan the header, reject non-binary
files, cap the count at `MAX_VERTEX_COUNT`, then read the records. -/
def parsePlyRaw (file : List Nat) : Except PlyError RawParse :=
  match parseHeader file with
  | Except.error e => Except.error e
  | Except.ok h =>
    if h.isBinary then
      match readRecords file h.props (min h.vertexCount MAX_VERTEX_COUNT) h.offset with
      | Except.error e => Except.error e
      | Except.ok recs =>
        Except.ok ⟨h.offset, h.vertexCount, min h.vertexCount MAX_VERTEX_COUNT, h.props, recs⟩
    else Except.error PlyError.notBinary

/-- Sign bit, biased exponent and mantissa fields of a 32-bit pattern. -/
def f32sgn (n : Nat) : Nat := n % 4294967296 / 2147483648

/-- Biased exponent field of a 32-bit float pattern. -/
def f32ex (n : Nat) : Nat := n % 4294967296 / 8388608 % 256

/-- Mantissa field of a 32-bit float pattern. -/
def f32mant (n : Nat) : Nat := n % 4294967296 % 8388608

/-- IEEE-754 binary32 value of a bit pattern, as a real number: the
value `dataView.getFloat32` hands to the decode switch.  Finite values
are exact; the exponent-255 patterns (infinities, NaNs) are mapped to 0,
a modelling choice the claims never exercise since they only involve
finite stored floats. -/
noncomputable def float32Val (n : Nat) : ℝ :=
  let mag : ℝ :=
    if f32ex n = 0 then (f32mant n : ℝ) / 2 ^ 149
    else if f32ex n = 255 then 0
    else if 150 ≤ f32ex n then ((2 ^ 23 + f32mant n : ℕ) : ℝ) * 2 ^ (f32ex n - 150)
    else ((2 ^ 23 + f32mant n : ℕ) : ℝ) / 2 ^ (150 - f32ex n)
  if f32sgn n = 1 then -mag else mag

/-- Per-vertex attributes of one splat, the decode loop locals
`x..z, sx..sz, rw..rz, opacity, r,g,b`. -/
structure Splat where
  px : ℝ
  py : ℝ
  pz : ℝ
  sx : ℝ
  sy : ℝ
  sz : ℝ
  rw : ℝ
  rx : ℝ
  ry : ℝ
  rz : ℝ
  opacity : ℝ
  cr : ℝ
  cg : ℝ
  cb : ℝ

/-- Per-vertex defaults of the decode loop of `parsePlyFile`. -/
noncomputable def defaultSplat : Splat :=
  { px := 0, py := 0, pz := 0
    sx := 0.1, sy := 0.1, sz := 0.1
    rw := 1, rx := 0, ry := 0, rz := 0
    opacity := 1
    cr := 0.5, cg := 0.5, cb := 0.5 }

/-- The name-keyed switch of `parsePlyFile` for one float property. -/
noncomputable def applyProp (s : Splat) (name : List Nat) (v : ℝ) : Splat :=
  if name = ascii "x" then { s with px := v }
  else if name = ascii "y" then { s with py := v }
  else if name = ascii "z" then { s with pz := v }
  else if name = ascii "scale_0" then { s with sx := Real.exp v }
  else if name = ascii "scale_1" then { s with sy := Real.exp v }
  else if name = ascii "scale_2" then { s with sz := Real.exp v }
  else if name = ascii "rot_0" then { s with rw := v }
  else if name = ascii "rot_1" then { s with rx := v }
  else if name = ascii "rot_2" then { s with ry := v }
  else if name = ascii "rot_3" then { s with rz := v }
  else if name = ascii "opacity" then { s with opacity := 1 / (1 + Real.exp (-v)) }
  else if name = ascii "f_dc_0" then { s with cr := 0.5 + 0.28209479177387814 * v }
  else if name = ascii "f_dc_1" then { s with cg := 0.5 + 0.28209479177387814 * v }
  else if name = ascii "f_dc_2" then { s with cb := 0.5 + 0.28209479177387814 * v }
  else s

/-- One decoded vertex: the switch folded over the float properties of a
record in schema order, then the per-channel clamp the source applies as
it stores `colors[i*3+k]`. -/
noncomputable def applyRecordVals (ps : List (List Nat × ℝ)) : Splat :=
  let s := ps.foldl (fun s p => applyProp s p.1 p.2) defaultSplat
  { s with
      cr := max 0 (min 1 s.cr)
      cg := max 0 (min 1 s.cg)
      cb := max 0 (min 1 s.cb) }

/-- One decoded vertex from raw float patterns. -/
noncomputable def applyRecord (ps : List (List Nat × Nat)) : Splat :=
  applyRecordVals (ps.map fun p => (p.1, float32Val p.2))

/-- The decoded result (`ParsedSplatData`): parallel flat buffers of
length `vertexCount` times the component count.  Slots of vertices the
loop never reached keep the zero fill of a fresh `Float32Array`. -/
structure SplatAttrs where
  vertexCount : Nat
  positions : List ℝ
  scales : List ℝ
  rotations : List ℝ
  opacities : List ℝ
  colors : List ℝ

/-- Flat attribute buffers from the structural parse: processed records
decoded through the transform switch, remaining slots zero. -/
noncomputable def splatOfRaw (r : RawParse) : SplatAttrs :=
  let ss := r.records.map applyRecord
  let pad := r.renderCount - ss.length
  { vertexCount := r.renderCount
    positions := (ss.map fun s => [s.px, s.py, s.pz]).flatten ++ List.replicate (3 * pad) 0
    scales := (ss.map fun s => [s.sx, s.sy, s.sz]).flatten ++ List.replicate (3 * pad) 0
    rotations := (ss.map fun s => [s.rw, s.rx, s.ry, s.rz]).flatten ++ List.replicate (4 * pad) 0
    opacities := ss.map Splat.opacity ++ List.replicate pad 0
    colors := (ss.map fun s => [s.cr, s.cg, s.cb]).flatten ++ List.replicate (3 * pad) 0 }

/-- Full `parsePlyFile`: byte-level parse then attribute decode. -/
noncomputable def decode (file : List Nat) : Except PlyError SplatAttrs :=
  (parsePlyRaw file).map splatOfRaw

/-! Concrete input files used in counterexamples and witnesses. -/

/-- Minimal 1-vertex file of the end-to-end scenario: header declaring
`x,y,z,opacity,f_dc_0` and body bytes for `1.0, 2.0, 3.0, 0.0, 0.0`. -/
def exC6 : List Nat :=
  ascii "ply\nformat binary_little_endian 1.0\nelement vertex 1\nproperty float x\nproperty float y\nproperty float z\nproperty float opacity\nproperty float f_dc_0\nend_header\n" ++
    [0, 0, 128, 63, 0, 0, 0, 64, 0, 0, 64, 64, 0, 0, 0, 0, 0, 0, 0, 0]

/-- Declares 3 vertices of one float each but carries a single full
record: the body (4 bytes) is shorter than 3 × 4. -/
def exShort : List Nat :=
  ascii "ply\nformat binary_little_endian 1.0\nelement vertex 3\nproperty float x\nend_header\n" ++
    [0, 0, 128, 63]

/-- Same header but a 2-byte body: the first float read crosses the end
of the buffer. -/
def exTrunc : List Nat :=
  ascii "ply\nformat binary_little_endian 1.0\nelement vertex 3\nproperty float x\nend_header\n" ++
    [0, 0]

/-- A file with a valid binary format line but no `end_header` anywhere. -/
def exC2 : List Nat := ascii "ply\nformat binary_little_endian 1.0\nelement vertex 0\n"

/-- A file with no `format` line at all. -/
def exNoFmt : List Nat := ascii "ply\nelement vertex 1\nend_header\n"

/-- A file declaring `format ascii 1.0`. -/
def exAsciiFmt : List Nat := ascii "ply\nformat ascii 1.0\nend_header\n"

/-- A header in which `element tvertex 1` — an element line other than
the vertex one — separates the vertex properties from a later property
line. -/
def exC7 : List Nat :=
  ascii "ply\nformat binary_little_endian 1.0\nelement vertex 1\nproperty float x\nelement tvertex 1\nproperty float y\nend_header\n"

/-- A header with irregular line lengths (whitespace padding around the
`element vertex` line, trimmed away during scanning). -/
def exC3 : List Nat :=
  ascii "ply\nformat binary_little_endian 1.0\n  element vertex 1  \nproperty float x\nend_header\n" ++
    [0, 0, 128, 63]

/-! Orbit camera and interaction handlers of `SplatRenderer`
(`initInputHandlers`), over real-valued coordinates. -/

/-- Camera and drag state of `SplatRenderer`: `target`, `radius`,
`camRot` (x is pitch, y is yaw), `isDragging`, `dragButton`, `lastMouse`. -/
structure Cam where
  tx : ℝ
  ty : ℝ
  tz : ℝ
  radius : ℝ
  pitch : ℝ
  yaw : ℝ
  isDragging : Bool
  dragButton : Int
  lastX : ℝ
  lastY : ℝ

/-- Construction-time state of `SplatRenderer`. -/
def initialCam : Cam :=
  { tx := 0, ty := 0, tz := 0, radius := 5, pitch := 0, yaw := 0
    isDragging := false, dragButton := -1, lastX := 0, lastY := 0 }

/-- Left-drag rotate branch: `camRot.x -= dy·0.005`,
`camRot.y -= dx·0.005`, then pitch clamped with
`Math.max(-π/2 + 0.01, Math.min(π/2 - 0.01, camRot.x))`. -/
noncomputable def rotateUpd (c : Cam) (dx dy : ℝ) : Cam :=
  { c with
      pitch := max (-(Real.pi / 2) + 0.01) (min (Real.pi / 2 - 0.01) (c.pitch - dy * 0.005))
      yaw := c.yaw - dx * 0.005 }

/-- Camera basis used by the pan branch, from radius, pitch and yaw
only: eye offset, forward normalized, right = up × forward normalized,
real up = forward × right, exactly as computed in the handler.  Real
division by zero yields 0 where JS would produce NaN from a degenerate
basis; the round-trip claim holds in this model either way. -/
noncomputable def panBasis (radius pitch yaw : ℝ) : (ℝ × ℝ × ℝ) × (ℝ × ℝ × ℝ) :=
  let cy := Real.cos yaw
  let sy := Real.sin yaw
  let cp := Real.cos pitch
  let sp := Real.sin pitch
  let z := radius
  let cx := cy * cp * z
  let cypos := sp * z
  let cz := sy * cp * z
  let up0 : ℝ := 0
  let up1 : ℝ := 1
  let up2 : ℝ := 0
  let fwd0 := -cx
  let fwd1 := -cypos
  let fwd2 := -cz
  let len := Real.sqrt (fwd0 ^ 2 + fwd1 ^ 2 + fwd2 ^ 2)
  let f0 := fwd0 / len
  let f1 := fwd1 / len
  let f2 := fwd2 / len
  let r0 := up1 * f2 - up2 * f1
  let r1 := up2 * f0 - up0 * f2
  let r2 := up0 * f1 - up1 * f0
  let rLen := Real.sqrt (r0 ^ 2 + r1 ^ 2 + r2 ^ 2)
  let right0 := r0 / rLen
  let right1 := r1 / rLen
  let right2 := r2 / rLen
  let u0 := f1 * right2 - f2 * right1
  let u1 := f2 * right0 - f0 * right2
  let u2 := f0 * right1 - f1 * right0
  ((right0, right1, right2), (u0, u1, u2))

/-- Right-drag pan branch: `target -= (right·dx − u·dy) · panSpeed`
componentwise, with `panSpeed = radius * 0.0015`. -/
noncomputable def panUpd (c : Cam) (dx dy : ℝ) : Cam :=
  let panSpeed := c.radius * 0.0015
  let b := panBasis c.radius c.pitch c.yaw
  { c with
      tx := c.tx - (b.1.1 * dx - b.2.1 * dy) * panSpeed
      ty := c.ty - (b.1.2.1 * dx - b.2.2.1 * dy) * panSpeed
      tz := c.tz - (b.1.2.2 * dx - b.2.2.2 * dy) * panSpeed }

/-- Wheel handler: `radius += deltaY · 0.01 · (radius · 0.1)` then
`radius = Math.max(0.1, radius)`. -/
noncomputable def wheelUpd (c : Cam) (deltaY : ℝ) : Cam :=
  { c with radius := max 0.1 (c.radius + deltaY * 0.01 * (c.radius * 0.1)) }

/-- The pointer and wheel events the handlers receive. -/
inductive Ev where
  | mousedown (button : Int) (x y : ℝ)
  | mouseup
  | mousemove (x y : ℝ)
  | wheel (deltaY : ℝ)

/-- One event through the listeners of `initInputHandlers`: mousedown
arms the drag and records the mouse, mouseup disarms it, mousemove while
dragging dispatches on the stored button (0 rotate, 2 pan, else only the
stored mouse moves), a wheel event rescales the radius. -/
noncomputable def step (c : Cam) : Ev → Cam
  | .mousedown b x y => { c with isDragging := true, dragButton := b, lastX := x, lastY := y }
  | .mouseup => { c with isDragging := false, dragButton := -1 }
  | .mousemove x y =>
    if c.isDragging then
      let dx := x - c.lastX
      let dy := y - c.lastY
      let c1 := { c with lastX := x, lastY := y }
      if c.dragButton = 0 then rotateUpd c1 dx dy
      else if c.dragButton = 2 then panUpd c1 dx dy
      else c1
    else c
  | .wheel d => wheelUpd c d

/-! Further concrete states used in witnesses. -/

/-- A file with neither a `format` line nor an `end_header` line. -/
def exPlain : List Nat := ascii "ply\nelement vertex 1\n"

/-- Schema of the end-to-end example file. -/
def propsC6 : List Property :=
  [⟨ascii "float", ascii "x"⟩, ⟨ascii "float", ascii "y"⟩, ⟨ascii "float", ascii "z"⟩,
   ⟨ascii "float", ascii "opacity"⟩, ⟨ascii "float", ascii "f_dc_0"⟩]

/-- Header-scan result of `exC6`. -/
def scanC6 : ScanState := ⟨160, 1, true, true, propsC6, true⟩

/-- Header-scan result of `exShort` and `exTrunc`. -/
def scanShort : ScanState := ⟨81, 3, true, true, [⟨ascii "float", ascii "x"⟩], true⟩

/-- Header-scan result of `exC7`. -/
def scanC7 : ScanState :=
  ⟨116, 1, true, true, [⟨ascii "float", ascii "x"⟩, ⟨ascii "float", ascii "y"⟩], true⟩

/-- Header-scan result of `exC3`. -/
def scanC3 : ScanState := ⟨85, 1, true, true, [⟨ascii "float", ascii "x"⟩], true⟩

/-- The raw (name, float pattern) pairs of the single record of `exC6`. -/
def recC6 : List (List Nat × Nat) :=
  [(ascii "x", 1065353216), (ascii "y", 1073741824), (ascii "z", 1077936128),
    (ascii "opacity", 0), (ascii "f_dc_0", 0)]

/-- Camera state armed for a left-button (rotate) drag. -/
def camL : Cam := { initialCam with isDragging := true, dragButton := 0 }

/-- Camera state armed for a right-button (pan) drag. -/
def camR : Cam := { initialCam with isDragging := true, dragButton := 2 }

/-! Derived notions the theorems quantify over. -/

/-- A scanned line on which the header loop breaks. -/
def isEndHeaderLine (l : List Nat) : Bool := decide (trimBytes l = ascii "end_header")

/-- A `format` line that does not assert `binary_little_endian 1.0`. -/
def isBadFormatLine (l : List Nat) : Bool :=
  startsW (trimBytes l) (ascii "format") &&
    !containsSub (trimBytes l) (ascii "binary_little_endian 1.0")

/-- How one trimmed header line changes the vertex-element flag: a line
starting `element vertex` (re)opens the context, an `element` line not
containing `vertex` closes it, every other line leaves it unchanged. -/
def vertexFlagUpd (flag : Bool) (line : List Nat) : Bool :=
  if startsW line (ascii "element vertex") then true
  else if startsW line (ascii "element") && !containsSub line (ascii "vertex") then false
  else flag

/-- The (type, name) pair a `property` line contributes. -/
def propOf (line : List Nat) : Property :=
  ⟨(splitOnByte 32 line).getD 1 [], (splitOnByte 32 line).getD 2 []⟩

/-- Independent restatement of which properties enter the schema: walk
the lines up to the first `end_header`, thread the vertex-element flag
through `vertexFlagUpd`, and collect `property` lines scanned while the
flag is set, in order. -/
def schemaSpec : List (List Nat) → Bool → List Property
  | [], _ => []
  | raw :: rest, flag =>
    let line := trimBytes raw
    if line = ascii "end_header" then []
    else
      (if vertexFlagUpd flag line && startsW line (ascii "property")
        then [propOf line] else []) ++ schemaSpec rest (vertexFlagUpd flag line)

/-! Helper lemmas about the byte-string primitives. -/

theorem splitOnByte_ne_nil (sep : Nat) (l : List Nat) : splitOnByte sep l ≠ [] := by
  cases l with
  | nil => simp [splitOnByte]
  | cons b t =>
    simp only [splitOnByte]
    split
    · simp
    · split <;> simp

theorem joinNl_splitOnByte (l : List Nat) : joinNl (splitOnByte 10 l) = l := by
  induction l with
  | nil => rfl
  | cons b t ih =>
    by_cases hb : b = 10
    · subst hb
      obtain ⟨h, r, hL⟩ := List.exists_cons_of_ne_nil (splitOnByte_ne_nil 10 t)
      simp only [splitOnByte, if_pos rfl, hL, joinNl]
      rw [← hL, ih]
      simp [joinNl]
    · obtain ⟨h, r, hL⟩ := List.exists_cons_of_ne_nil (splitOnByte_ne_nil 10 t)
      simp only [splitOnByte, if_neg hb, hL]
      cases r with
      | nil =>
        simp only [joinNl]
        rw [hL] at ih
        simp only [joinNl] at ih
        rw [ih]
      | cons r1 rs =>
        simp only [joinNl]
        rw [hL] at ih
        simp only [joinNl] at ih
        rw [List.cons_append, ih]

theorem joinNl_append (L1 L2 : List (List Nat)) (h1 : L1 ≠ []) (h2 : L2 ≠ []) :
    joinNl (L1 ++ L2) = joinNl L1 ++ 10 :: joinNl L2 := by
  induction L1 with
  | nil => exact absurd rfl h1
  | cons x r ih =>
    cases r with
    | nil =>
      obtain ⟨h, t, hL⟩ := List.exists_cons_of_ne_nil h2
      simp [hL, joinNl]
    | cons y rs =>
      have ihy := ih (by simp)
      have e1 : joinNl ((x :: y :: rs) ++ L2) = x ++ 10 :: joinNl ((y :: rs) ++ L2) := rfl
      have e2 : joinNl (x :: y :: rs) = x ++ 10 :: joinNl (y :: rs) := rfl
      rw [e1, ihy, e2]
      simp [List.append_assoc]

theorem take_len_plus_one (A B : List Nat) (b : Nat) :
    (A ++ b :: B).take (A.length + 1) = A ++ [b] := by
  induction A with
  | nil => simp
  | cons a t ih => simp only [List.cons_append, List.length_cons, List.take_succ_cons, ih]

/-! Helper lemmas about the header scan. -/

theorem lineUpdate_error_eq (st : ScanState) (l : List Nat) (e : PlyError)
    (h : lineUpdate st l = Except.error e) :
    e = PlyError.unsupportedFormat ∧ startsW l (ascii "format") = true ∧
      containsSub l (ascii "binary_little_endian 1.0") = false := by
  unfold lineUpdate at h
  split_ifs at h with h1 h2 <;> simp_all

theorem lineUpdate_ok_proj (st st' : ScanState) (l : List Nat)
    (h : lineUpdate st l = Except.ok st') :
    st'.offset = st.offset ∧ st'.foundEnd = st.foundEnd ∧
      st'.vertexCount = (if startsW l (ascii "element vertex") then
        (jsParseIntNat ((splitOnByte 32 l).getD 2 [])).getD 0 else st.vertexCount) ∧
      st'.isBinary = (st.isBinary || startsW l (ascii "format")) ∧
      st'.inVertexElement = vertexFlagUpd st.inVertexElement l ∧
      st'.props = st.props ++
        (if vertexFlagUpd st.inVertexElement l && startsW l (ascii "property")
          then [propOf l] else []) := by
  unfold lineUpdate at h
  by_cases hf : startsW l (ascii "format") = true <;>
    by_cases hc : containsSub l (ascii "binary_little_endian 1.0") = true <;>
    by_cases hev : startsW l (ascii "element vertex") = true <;>
    by_cases hee : startsW l (ascii "element") = true <;>
    by_cases hcv : containsSub l (ascii "vertex") = true <;>
    by_cases hiv : st.inVertexElement = true <;>
    by_cases hp : startsW l (ascii "property") = true <;>
    simp_all [vertexFlagUpd, propOf] <;>
    (subst h; exact ⟨rfl, rfl, rfl, rfl, rfl, rfl⟩)

theorem lineUpdate_bad_format (st : ScanState) (l : List Nat)
    (h1 : startsW l (ascii "format") = true)
    (h2 : containsSub l (ascii "binary_little_endian 1.0") = false) :
    lineUpdate st l = Except.error PlyError.unsupportedFormat := by
  unfold lineUpdate
  rw [h1]
  simp [h2]

theorem scanLines_ok_found : ∀ (rest consumed : List (List Nat)) (st h : ScanState),
    scanLines consumed rest st = Except.ok h → h.foundEnd = true → st.foundEnd = false →
    ∃ i, i < rest.length ∧ isEndHeaderLine (rest.getD i []) = true ∧
      (∀ j, j < i → isEndHeaderLine (rest.getD j []) = false) ∧
      h.offset = (joinNl (consumed ++ rest.take (i + 1))).length + 1 := by
  intro rest
  induction rest with
  | nil =>
    intro consumed st h hs hf hs0
    simp only [scanLines, Except.ok.injEq] at hs
    subst hs
    rw [hf] at hs0
    exact absurd hs0 (by simp)
  | cons raw rest ih =>
    intro consumed st h hs hf hs0
    simp only [scanLines] at hs
    by_cases hend : trimBytes raw = ascii "end_header"
    · rw [if_pos hend] at hs
      simp only [Except.ok.injEq] at hs
      subst hs
      refine ⟨0, by simp, ?_, by omega, ?_⟩
      · simp [isEndHeaderLine, hend]
      · simp
    · rw [if_neg hend] at hs
      cases hlu : lineUpdate { st with offset := st.offset + (trimBytes raw).length + 1 }
          (trimBytes raw) with
      | error e => rw [hlu] at hs; exact absurd hs (by simp)
      | ok st2 =>
        rw [hlu] at hs
        have hproj := lineUpdate_ok_proj _ _ _ hlu
        have hs2 : st2.foundEnd = false := by
          rw [hproj.2.1]; exact hs0
        obtain ⟨i, hilen, hiend, hjnot, hoff⟩ := ih (consumed ++ [raw]) st2 h hs hf hs2
        refine ⟨i + 1, by simpa using hilen, by simpa using hiend, ?_, ?_⟩
        · intro j hj
          cases j with
          | zero => simp [isEndHeaderLine, hend]
          | succ j' => simpa using hjnot j' (by omega)
        · rw [hoff, List.append_assoc]
          rfl

theorem scanLines_no_format : ∀ (rest consumed : List (List Nat)) (st : ScanState),
    (∀ l ∈ rest, startsW (trimBytes l) (ascii "format") = false) →
    ∃ st', scanLines consumed rest st = Except.ok st' ∧ st'.isBinary = st.isBinary := by
  intro rest
  induction rest with
  | nil => intro consumed st _; exact ⟨st, rfl, rfl⟩
  | cons raw rest ih =>
    intro consumed st hno
    simp only [scanLines]
    by_cases hend : trimBytes raw = ascii "end_header"
    · rw [if_pos hend]
      exact ⟨_, rfl, rfl⟩
    · rw [if_neg hend]
      cases hlu : lineUpdate { st with offset := st.offset + (trimBytes raw).length + 1 }
          (trimBytes raw) with
      | error e =>
        have := (lineUpdate_error_eq _ _ _ hlu).2.1
        rw [hno raw (by simp)] at this
        exact absurd this (by simp)
      | ok st2 =>
        have hproj := lineUpdate_ok_proj _ _ _ hlu
        obtain ⟨st', hs, hbin⟩ := ih (consumed ++ [raw]) st2 (fun l hl => hno l (by simp [hl]))
        refine ⟨st', hs, ?_⟩
        rw [hbin, hproj.2.2.2.1, hno raw (by simp)]
        simp

theorem scanLines_bad_format :
    ∀ (rest : List (List Nat)) (i : Nat) (consumed : List (List Nat)) (st : ScanState),
    i < rest.length → isBadFormatLine (rest.getD i []) = true →
    (∀ j, j < i → isEndHeaderLine (rest.getD j []) = false) →
    scanLines consumed rest st = Except.error PlyError.unsupportedFormat := by
  intro rest
  induction rest with
  | nil => intro i consumed st hi; simp at hi
  | cons raw rest ih =>
    intro i consumed st hi hbad hjnot
    simp only [scanLines]
    cases i with
    | zero =>
      simp only [List.getD_cons_zero, isBadFormatLine, Bool.and_eq_true,
        Bool.not_eq_true'] at hbad
      have hend : ¬(trimBytes raw = ascii "end_header") := by
        intro he
        rw [he] at hbad
        exact absurd hbad.1 (by decide)
      rw [if_neg hend, lineUpdate_bad_format _ _ hbad.1 hbad.2]
    | succ i' =>
      have hend : ¬(trimBytes raw = ascii "end_header") := by
        have := hjnot 0 (by omega)
        simp only [List.getD_cons_zero, isEndHeaderLine, decide_eq_false_iff_not] at this
        exact this
      rw [if_neg hend]
      cases hlu : lineUpdate { st with offset := st.offset + (trimBytes raw).length + 1 }
          (trimBytes raw) with
      | error e =>
        rw [(lineUpdate_error_eq _ _ _ hlu).1]
      | ok st2 =>
        exact ih i' (consumed ++ [raw]) st2 (by simpa using hi) (by simpa using hbad)
          (fun j hj => by simpa using hjnot (j + 1) (by omega))

theorem scanLines_props : ∀ (rest consumed : List (List Nat)) (st h : ScanState),
    scanLines consumed rest st = Except.ok h →
    h.props = st.props ++ schemaSpec rest st.inVertexElement := by
  intro rest
  induction rest with
  | nil =>
    intro consumed st h hs
    simp only [scanLines, Except.ok.injEq] at hs
    subst hs
    simp [schemaSpec]
  | cons raw rest ih =>
    intro consumed st h hs
    simp only [scanLines] at hs
    by_cases hend : trimBytes raw = ascii "end_header"
    · rw [if_pos hend] at hs
      simp only [Except.ok.injEq] at hs
      subst hs
      simp [schemaSpec, hend]
    · rw [if_neg hend] at hs
      cases hlu : lineUpdate { st with offset := st.offset + (trimBytes raw).length + 1 }
          (trimBytes raw) with
      | error e => rw [hlu] at hs; exact absurd hs (by simp)
      | ok st2 =>
        rw [hlu] at hs
        have hproj := lineUpdate_ok_proj _ _ _ hlu
        have := ih (consumed ++ [raw]) st2 h hs
        rw [this, hproj.2.2.2.2.2, hproj.2.2.2.2.1]
        simp only [schemaSpec, if_neg hend]
        rw [List.append_assoc]

/-! Helper lemmas about the record loop. -/

theorem readRecord_ok (file : List Nat) : ∀ (props : List Property) (o : Nat),
    o + recordStride props ≤ file.length →
    ∃ ps, readRecord file props o = Except.ok (ps, o + recordStride props) := by
  intro props
  induction props with
  | nil => intro o _; exact ⟨[], by simp [readRecord, recordStride]⟩
  | cons p rest ih =>
    intro o hlen
    by_cases hf : isFloatType p.ptype = true
    · have hadv : propAdvance p = 4 := by simp [propAdvance, hf]
      have hs : recordStride (p :: rest) = 4 + recordStride rest := by
        simp [recordStride, hadv]
      rw [hs] at hlen
      have hb : o + 4 ≤ file.length := by omega
      obtain ⟨ps, hrec⟩ := ih (o + 4) (by omega)
      refine ⟨(p.pname, read4LE file o) :: ps, ?_⟩
      simp only [readRecord, hf, if_true, if_pos hb, hrec]
      have : o + 4 + recordStride rest = o + recordStride (p :: rest) := by rw [hs]; omega
      rw [this]
    · have hadv : propAdvance p = propWidth p.ptype := by
        simp [propAdvance]
        intro hc
        exact absurd hc hf
      have hs : recordStride (p :: rest) = propWidth p.ptype + recordStride rest := by
        simp [recordStride, hadv]
      rw [hs] at hlen
      obtain ⟨ps, hrec⟩ := ih (o + propWidth p.ptype) (by omega)
      refine ⟨ps, ?_⟩
      have e : readRecord file (p :: rest) o = readRecord file rest (o + propWidth p.ptype) := by
        simp [readRecord, hf]
      rw [e, hrec]
      have : o + propWidth p.ptype + recordStride rest = o + recordStride (p :: rest) := by
        rw [hs]; omega
      rw [this]

theorem readRecords_full (file : List Nat) (props : List Property)
    (hstride : 0 < recordStride props) : ∀ (n o : Nat),
    o + n * recordStride props ≤ file.length →
    ∃ recs, readRecords file props n o = Except.ok recs ∧ recs.length = n := by
  intro n
  induction n with
  | zero => intro o _; exact ⟨[], rfl, rfl⟩
  | succ m ih =>
    intro o hlen
    have h1 : o + recordStride props ≤ file.length := by nlinarith
    obtain ⟨ps, hrec⟩ := readRecord_ok file props o h1
    obtain ⟨recs, hrecs, hlenr⟩ := ih (o + recordStride props) (by nlinarith)
    refine ⟨ps :: recs, ?_, by simp [hlenr]⟩
    simp only [readRecords, if_neg (by omega : ¬file.length ≤ o), hrec, hrecs]

theorem readRecords_exact (file : List Nat) (props : List Property)
    (hstride : 0 < recordStride props) : ∀ (k n o : Nat), k < n →
    o + k * recordStride props = file.length →
    ∃ recs, readRecords file props n o = Except.ok recs ∧ recs.length = k := by
  intro k
  induction k with
  | zero =>
    intro n o hk hlen
    cases n with
    | zero => omega
    | succ m =>
      refine ⟨[], ?_, rfl⟩
      simp only [readRecords, if_pos (by omega : file.length ≤ o)]
  | succ k' ih =>
    intro n o hk hlen
    cases n with
    | zero => omega
    | succ m =>
      have h1 : o + recordStride props ≤ file.length := by nlinarith
      obtain ⟨ps, hrec⟩ := readRecord_ok file props o h1
      obtain ⟨recs, hrecs, hlenr⟩ := ih m (o + recordStride props) (by omega) (by
        have hmul : (k' + 1) * recordStride props =
            recordStride props + k' * recordStride props := by ring
        omega)
      refine ⟨ps :: recs, ?_, by simp [hlenr]⟩
      simp only [readRecords, if_neg (by omega : ¬file.length ≤ o), hrec, hrecs]

/-! IEEE-754 values of the concrete patterns in the example file. -/

theorem float32Val_zero : float32Val 0 = 0 := by
  have hs : f32sgn 0 = 0 := by decide
  have he : f32ex 0 = 0 := by decide
  have hm : f32mant 0 = 0 := by decide
  norm_num [float32Val, hs, he, hm]

theorem float32Val_one : float32Val 1065353216 = 1 := by
  have hs : f32sgn 1065353216 = 0 := by decide
  have he : f32ex 1065353216 = 127 := by decide
  have hm : f32mant 1065353216 = 0 := by decide
  norm_num [float32Val, hs, he, hm]

theorem float32Val_two : float32Val 1073741824 = 2 := by
  have hs : f32sgn 1073741824 = 0 := by decide
  have he : f32ex 1073741824 = 128 := by decide
  have hm : f32mant 1073741824 = 0 := by decide
  norm_num [float32Val, hs, he, hm]

theorem float32Val_three : float32Val 1077936128 = 3 := by
  have hs : f32sgn 1077936128 = 0 := by decide
  have he : f32ex 1077936128 = 128 := by decide
  have hm : f32mant 1077936128 = 4194304 := by decide
  norm_num [float32Val, hs, he, hm]

/-! Helper lemmas about the camera. -/

theorem rotate_pitch_mem (c : Cam) (dx dy : ℝ) :
    (rotateUpd c dx dy).pitch ∈ Set.Icc (-(Real.pi / 2) + 0.01) (Real.pi / 2 - 0.01) := by
  have hlohi : -(Real.pi / 2) + 0.01 ≤ Real.pi / 2 - 0.01 := by nlinarith [Real.pi_gt_three]
  constructor
  · exact le_max_left _ _
  · exact max_le hlohi (min_le_left _ _)

theorem foldl_rot_mem : ∀ (ops : List (ℝ × ℝ)) (c : Cam), ops ≠ [] →
    (ops.foldl (fun s d => rotateUpd s d.1 d.2) c).pitch ∈
      Set.Icc (-(Real.pi / 2) + 0.01) (Real.pi / 2 - 0.01) := by
  intro ops
  induction ops with
  | nil => intro c h; exact absurd rfl h
  | cons d rest ih =>
    intro c _
    cases rest with
    | nil => simpa using rotate_pitch_mem c d.1 d.2
    | cons e tl => exact ih _ (by simp)

/-! The claims. -/

/-- Claim C1, counterexample.  The claim says a body shorter than
`vertexCount × recordStride` yields a result whose `vertexCount` equals
the number of fully readable records with no exception raised.  On
`exShort` (3 declared one-float vertices, body of exactly one record)
decode succeeds but reports `vertexCount = 3`, not the 1 fully readable
record; and on `exTrunc` (body of 2 bytes) the decoder raises the
`getFloat32` range error instead of dropping the partial tail record. -/
theorem claim_C1_counterexample :
    (decode exShort).toOption.map SplatAttrs.vertexCount = some 3 ∧
    (parsePlyRaw exShort).toOption.map (fun r => r.records.length) = some 1 ∧
    exShort.length = 81 + 1 * 4 ∧
    ¬((3 : Nat) = 1) ∧
    parsePlyRaw exTrunc = Except.error PlyError.rangeError :=
  ⟨by decide, by decide, by decide, by decide, by decide⟩

set_option maxRecDepth 100000 in
/-- Claim C1, amended.  For a body short by whole records (the file ends
exactly at a record boundary after `k` of the declared records, `k` below
the capped count), decode raises no exception but returns `vertexCount =
min(declared, cap)` — not the number `k` of fully readable records; only
`k` records are decoded and the remaining attribute slots keep the zero
fill.  When instead a float read of a record crosses the end of the
buffer, decode raises a range error (counterexample theorem). -/
theorem claim_C1_amended (file : List Nat) (h : ScanState) (k : Nat)
    (hp : parseHeader file = Except.ok h) (hbin : h.isBinary = true)
    (hstride : 0 < recordStride h.props)
    (hk : k < min h.vertexCount MAX_VERTEX_COUNT)
    (hlen : h.offset + k * recordStride h.props = file.length) :
    ∃ s raw, decode file = Except.ok s ∧ parsePlyRaw file = Except.ok raw ∧
      s.vertexCount = min h.vertexCount MAX_VERTEX_COUNT ∧
      raw.records.length = k ∧ ¬(s.vertexCount = k) ∧
      s.opacities = (raw.records.map applyRecord).map Splat.opacity ++
        List.replicate (min h.vertexCount MAX_VERTEX_COUNT - k) 0 := by
  obtain ⟨recs, hr, hlenr⟩ := readRecords_exact file h.props hstride k _ h.offset hk hlen
  have hraw : parsePlyRaw file =
      Except.ok ⟨h.offset, h.vertexCount, min h.vertexCount MAX_VERTEX_COUNT, h.props, recs⟩ := by
    unfold parsePlyRaw
    rw [hp]
    simp [hbin, hr]
  refine ⟨splatOfRaw ⟨h.offset, h.vertexCount, min h.vertexCount MAX_VERTEX_COUNT, h.props, recs⟩,
    ⟨h.offset, h.vertexCount, min h.vertexCount MAX_VERTEX_COUNT, h.props, recs⟩,
    ?_, hraw, rfl, hlenr, ?_, ?_⟩
  · unfold decode
    rw [hraw]
    rfl
  · show ¬(min h.vertexCount MAX_VERTEX_COUNT = k)
    omega
  · show (splatOfRaw _).opacities = _
    simp only [splatOfRaw]
    rw [List.length_map, hlenr]

set_option maxRecDepth 100000 in
/-- Claim C1, amended, witness: instantiated on `exShort`, whose body is
one full record of the three declared. -/
theorem claim_C1_witness :
    ∃ s raw, decode exShort = Except.ok s ∧ parsePlyRaw exShort = Except.ok raw ∧
      s.vertexCount = min scanShort.vertexCount MAX_VERTEX_COUNT ∧
      raw.records.length = 1 ∧ ¬(s.vertexCount = 1) ∧
      s.opacities = (raw.records.map applyRecord).map Splat.opacity ++
        List.replicate (min scanShort.vertexCount MAX_VERTEX_COUNT - 1) 0 :=
  claim_C1_amended exShort scanShort 1 (by decide) rfl (by decide) (by decide) (by decide)

set_option maxRecDepth 100000 in
/-- Claim C2, counterexample.  The claim says an input with no
`end_header` in the scanned prefix fails with a malformed-header error.
On `exC2` (valid binary format line, zero vertices, no `end_header`
anywhere) decode raises nothing at all and returns an empty result. -/
theorem claim_C2_counterexample :
    ((linesOf exC2).all fun l => !isEndHeaderLine l) = true ∧
    parsePlyRaw exC2 = Except.ok ⟨54, 0, 0, [], []⟩ ∧
    (decode exC2).toOption.map SplatAttrs.vertexCount = some 0 :=
  ⟨by decide, by decide, by decide⟩

set_option maxRecDepth 100000 in
/-- Claim C2, amended.  The decoder has no malformed-header error: a
missing `end_header` alone never fails the decode.  When the scanned
prefix has no `end_header` line and also no `format` line, decode fails
with the not-binary error; with a valid binary format line present it
proceeds to record decoding despite the missing `end_header`
(counterexample theorem). -/
theorem claim_C2_amended (file : List Nat)
    (_hnoe : ∀ l ∈ linesOf file, isEndHeaderLine l = false)
    (hnof : ∀ l ∈ linesOf file, startsW (trimBytes l) (ascii "format") = false) :
    parsePlyRaw file = Except.error PlyError.notBinary := by
  obtain ⟨st', hok, hbin⟩ := scanLines_no_format (linesOf file) [] _ hnof
  unfold parsePlyRaw parseHeader
  rw [hok]
  simp [hbin]

set_option maxRecDepth 100000 in
/-- Claim C2, amended, witness: `exPlain` has neither an `end_header`
nor a `format` line and decodes to the not-binary error. -/
theorem claim_C2_witness : parsePlyRaw exPlain = Except.error PlyError.notBinary :=
  claim_C2_amended exPlain (by decide) (by decide)

set_option maxRecDepth 100000 in
/-- Claim C3, confirmed.  Whenever the scan finds `end_header` (at the
first such trimmed line, index `i`), the header offset it returns is the
exact byte length of the raw lines up to and including line `i` joined
with newlines, plus one for the terminating newline — and when that
newline exists in the scanned chunk, the file prefix of exactly that
length is precisely those header bytes, so the approximate running sum is
discarded. -/
theorem claim_C3 (file : List Nat) (h : ScanState)
    (hp : parseHeader file = Except.ok h) (hf : h.foundEnd = true) :
    ∃ i, i < (linesOf file).length ∧ isEndHeaderLine ((linesOf file).getD i []) = true ∧
      (∀ j, j < i → isEndHeaderLine ((linesOf file).getD j []) = false) ∧
      h.offset = (joinNl ((linesOf file).take (i + 1))).length + 1 ∧
      (i + 1 < (linesOf file).length →
        file.take h.offset = joinNl ((linesOf file).take (i + 1)) ++ [10]) := by
  obtain ⟨i, hilen, hiend, hjnot, hoff⟩ := scanLines_ok_found (linesOf file) [] _ h hp hf rfl
  simp only [List.nil_append] at hoff
  refine ⟨i, hilen, hiend, hjnot, hoff, ?_⟩
  intro hlt
  have hjoin : joinNl (linesOf file) = file.take 5000 := joinNl_splitOnByte _
  have htd : linesOf file = (linesOf file).take (i + 1) ++ (linesOf file).drop (i + 1) :=
    (List.take_append_drop _ _).symm
  have h1 : (linesOf file).take (i + 1) ≠ [] := by
    intro hnil
    have hlentake := List.length_take (i + 1) (linesOf file)
    rw [hnil] at hlentake
    simp only [List.length_nil] at hlentake
    omega
  have h2 : (linesOf file).drop (i + 1) ≠ [] := by
    intro hnil
    have hlendrop := List.length_drop (i + 1) (linesOf file)
    rw [hnil] at hlendrop
    simp only [List.length_nil] at hlendrop
    omega
  have hsplit : file.take 5000 =
      joinNl ((linesOf file).take (i + 1)) ++ 10 :: joinNl ((linesOf file).drop (i + 1)) := by
    rw [← hjoin]
    conv_lhs => rw [htd]
    exact joinNl_append _ _ h1 h2
  have hlen5000 : (file.take 5000).length ≤ 5000 := by
    rw [List.length_take]; exact min_le_left _ _
  have hoffle : h.offset ≤ (file.take 5000).length := by
    rw [hsplit, List.length_append, hoff]
    simp
  have heq : file.take h.offset = (file.take 5000).take h.offset := by
    rw [List.take_take]
    congr 1
    omega
  rw [heq, hsplit, hoff]
  exact take_len_plus_one _ _ 10

set_option maxRecDepth 100000 in
/-- Claim C3, witness: instantiated on `exC3`, whose `element vertex`
line carries trimmed whitespace padding, so the approximate running sum
(which uses trimmed lengths) would drift; the returned offset 85 is the
exact header byte length. -/
theorem claim_C3_witness :
    ∃ i, i < (linesOf exC3).length ∧
      isEndHeaderLine ((linesOf exC3).getD i []) = true ∧
      (∀ j, j < i → isEndHeaderLine ((linesOf exC3).getD j []) = false) ∧
      scanC3.offset = (joinNl ((linesOf exC3).take (i + 1))).length + 1 ∧
      (i + 1 < (linesOf exC3).length →
        exC3.take scanC3.offset = joinNl ((linesOf exC3).take (i + 1)) ++ [10]) :=
  claim_C3 exC3 scanC3 (by decide) rfl

set_option maxRecDepth 100000 in
/-- Claim C4, confirmed.  For a well-formed binary header with a
positive record stride and a body long enough for the capped count,
decode succeeds with `vertexCount = min(declared, MAX_VERTEX_COUNT)`,
exactly that many records are decoded, and never more than the cap. -/
theorem claim_C4 (file : List Nat) (h : ScanState)
    (hp : parseHeader file = Except.ok h) (hbin : h.isBinary = true)
    (hstride : 0 < recordStride h.props)
    (hlen : h.offset + min h.vertexCount MAX_VERTEX_COUNT * recordStride h.props ≤ file.length) :
    ∃ s raw, decode file = Except.ok s ∧ parsePlyRaw file = Except.ok raw ∧
      s.vertexCount = min h.vertexCount MAX_VERTEX_COUNT ∧
      raw.renderCount = min h.vertexCount MAX_VERTEX_COUNT ∧
      raw.records.length = min h.vertexCount MAX_VERTEX_COUNT ∧
      raw.records.length ≤ MAX_VERTEX_COUNT := by
  obtain ⟨recs, hr, hlenr⟩ := readRecords_full file h.props hstride _ h.offset hlen
  have hraw : parsePlyRaw file =
      Except.ok ⟨h.offset, h.vertexCount, min h.vertexCount MAX_VERTEX_COUNT, h.props, recs⟩ := by
    unfold parsePlyRaw
    rw [hp]
    simp [hbin, hr]
  refine ⟨splatOfRaw ⟨h.offset, h.vertexCount, min h.vertexCount MAX_VERTEX_COUNT, h.props, recs⟩,
    ⟨h.offset, h.vertexCount, min h.vertexCount MAX_VERTEX_COUNT, h.props, recs⟩,
    ?_, hraw, rfl, rfl, hlenr, ?_⟩
  · unfold decode
    rw [hraw]
    rfl
  · show recs.length ≤ MAX_VERTEX_COUNT
    rw [hlenr]
    exact min_le_right _ _

set_option maxRecDepth 100000 in
/-- Claim C4, witness: instantiated on the valid 1-vertex file `exC6`. -/
theorem claim_C4_witness :
    ∃ s raw, decode exC6 = Except.ok s ∧ parsePlyRaw exC6 = Except.ok raw ∧
      s.vertexCount = min scanC6.vertexCount MAX_VERTEX_COUNT ∧
      raw.renderCount = min scanC6.vertexCount MAX_VERTEX_COUNT ∧
      raw.records.length = min scanC6.vertexCount MAX_VERTEX_COUNT ∧
      raw.records.length ≤ MAX_VERTEX_COUNT :=
  claim_C4 exC6 scanC6 (by decide) rfl (by decide) (by decide)

set_option maxRecDepth 100000 in
/-- Claim C5, confirmed.  A scanned `format` line without
`binary_little_endian 1.0` (with no earlier `end_header`) fails the
decode with the unsupported-format throw, and a file whose scanned
prefix has no `format` line at all fails with the not-binary throw; the
spec files both throws under `UnsupportedFormat`, and either way the
decode returns an error, never a partial result. -/
theorem claim_C5 :
    (∀ (file : List Nat) (i : Nat), i < (linesOf file).length →
      isBadFormatLine ((linesOf file).getD i []) = true →
      (∀ j, j < i → isEndHeaderLine ((linesOf file).getD j []) = false) →
      parsePlyRaw file = Except.error PlyError.unsupportedFormat ∧
        PlyError.unsupportedFormat.isFormatError = true) ∧
    (∀ file : List Nat,
      (∀ l ∈ linesOf file, startsW (trimBytes l) (ascii "format") = false) →
      parsePlyRaw file = Except.error PlyError.notBinary ∧
        PlyError.notBinary.isFormatError = true) := by
  constructor
  · intro file i hi hbad hjnot
    have hscan := scanLines_bad_format (linesOf file) i []
      ⟨0, 0, false, false, [], false⟩ hi hbad hjnot
    refine ⟨?_, rfl⟩
    unfold parsePlyRaw parseHeader
    rw [hscan]
  · intro file hnof
    obtain ⟨st', hok, hbin⟩ := scanLines_no_format (linesOf file) [] _ hnof
    refine ⟨?_, rfl⟩
    unfold parsePlyRaw parseHeader
    rw [hok]
    simp [hbin]

set_option maxRecDepth 100000 in
/-- Claim C5, witness: `exAsciiFmt` declares `format ascii 1.0` and
fails with the unsupported-format error; `exNoFmt` has no format line
and fails with the not-binary error. -/
theorem claim_C5_witness :
    (parsePlyRaw exAsciiFmt = Except.error PlyError.unsupportedFormat ∧
      PlyError.unsupportedFormat.isFormatError = true) ∧
    (parsePlyRaw exNoFmt = Except.error PlyError.notBinary ∧
      PlyError.notBinary.isFormatError = true) :=
  ⟨claim_C5.1 exAsciiFmt 1 (by decide) (by decide)
      (fun j hj => by interval_cases j; decide),
    claim_C5.2 exNoFmt (by decide)⟩

set_option maxRecDepth 100000 in
/-- Claim C6, confirmed.  The decode switch maps a full record of the
thirteen named float properties to exactly the specified transforms
(positions and quaternion copied, scales exponentiated, opacity through
the logistic, colors through the SH0 affine map then clamped); a record
setting nothing leaves every attribute at its default; and the 1-vertex
example file with `x=1, y=2, z=3, opacity=0, f_dc_0=0` decodes to
position (1,2,3), opacity one half, and mid-gray color. -/
theorem claim_C6 :
    (∀ x y z s0 s1 s2 r0 r1 r2 r3 op d0 d1 d2 : ℝ,
      applyRecordVals [(ascii "x", x), (ascii "y", y), (ascii "z", z),
        (ascii "scale_0", s0), (ascii "scale_1", s1), (ascii "scale_2", s2),
        (ascii "rot_0", r0), (ascii "rot_1", r1), (ascii "rot_2", r2), (ascii "rot_3", r3),
        (ascii "opacity", op), (ascii "f_dc_0", d0), (ascii "f_dc_1", d1), (ascii "f_dc_2", d2)] =
      { px := x, py := y, pz := z,
        sx := Real.exp s0, sy := Real.exp s1, sz := Real.exp s2,
        rw := r0, rx := r1, ry := r2, rz := r3,
        opacity := 1 / (1 + Real.exp (-op)),
        cr := max 0 (min 1 (0.5 + 0.28209479177387814 * d0)),
        cg := max 0 (min 1 (0.5 + 0.28209479177387814 * d1)),
        cb := max 0 (min 1 (0.5 + 0.28209479177387814 * d2)) }) ∧
    applyRecordVals [] = defaultSplat ∧
    decode exC6 = Except.ok
      { vertexCount := 1, positions := [1, 2, 3], scales := [0.1, 0.1, 0.1],
        rotations := [1, 0, 0, 0], opacities := [1 / 2], colors := [1 / 2, 1 / 2, 1 / 2] } := by
  refine ⟨?_, ?_, ?_⟩
  · intro x y z s0 s1 s2 r0 r1 r2 r3 op d0 d1 d2
    rfl
  · show ({ defaultSplat with
        cr := max 0 (min 1 (0.5 : ℝ)), cg := max 0 (min 1 (0.5 : ℝ)),
        cb := max 0 (min 1 (0.5 : ℝ)) } : Splat) = defaultSplat
    have h1 : min (1 : ℝ) 0.5 = 0.5 := min_eq_right (by norm_num)
    have h2 : max (0 : ℝ) 0.5 = 0.5 := max_eq_right (by norm_num)
    rw [h1, h2]
    rfl
  · have hraw : parsePlyRaw exC6 = Except.ok ⟨160, 1, 1, propsC6, [recC6]⟩ := by decide
    have hv : recC6.map (fun p => (p.1, float32Val p.2)) =
        [(ascii "x", (1 : ℝ)), (ascii "y", 2), (ascii "z", 3),
          (ascii "opacity", 0), (ascii "f_dc_0", 0)] := by
      simp [recC6, float32Val_one, float32Val_two, float32Val_three, float32Val_zero]
    have hrec : applyRecord recC6 =
        { px := 1, py := 2, pz := 3, sx := 0.1, sy := 0.1, sz := 0.1,
          rw := 1, rx := 0, ry := 0, rz := 0, opacity := 1 / 2,
          cr := 1 / 2, cg := 1 / 2, cb := 1 / 2 } := by
      unfold applyRecord
      rw [hv]
      have h0 : applyRecordVals [(ascii "x", (1 : ℝ)), (ascii "y", 2), (ascii "z", 3),
          (ascii "opacity", 0), (ascii "f_dc_0", 0)] =
          { px := 1, py := 2, pz := 3, sx := 0.1, sy := 0.1, sz := 0.1,
            rw := 1, rx := 0, ry := 0, rz := 0,
            opacity := 1 / (1 + Real.exp (-0)),
            cr := max 0 (min 1 (0.5 + 0.28209479177387814 * 0)),
            cg := max 0 (min 1 (0.5 : ℝ)), cb := max 0 (min 1 (0.5 : ℝ)) } := rfl
      rw [h0]
      congr 1 <;> norm_num [Real.exp_zero]
    unfold decode
    rw [hraw]
    show Except.ok (splatOfRaw ⟨160, 1, 1, propsC6, [recC6]⟩) = _
    congr 1
    simp only [splatOfRaw, List.map_cons, List.map_nil, hrec]
    norm_num

set_option maxRecDepth 100000 in
/-- Claim C7, counterexample.  The claim says any element line other
than the vertex one closes the vertex context and later property lines
contribute nothing.  In `exC7` the line `element tvertex 1` is an
element line and is not the vertex element line, yet the following
`property float y` still enters the schema: the scan yields the
two-property schema `x, y` where the claim demands `x` alone (the close
test requires the line not to contain the substring `vertex`). -/
theorem claim_C7_counterexample :
    (parseHeader exC7).toOption.map ScanState.props =
      some [⟨ascii "float", ascii "x"⟩, ⟨ascii "float", ascii "y"⟩] ∧
    startsW (trimBytes (ascii "element tvertex 1")) (ascii "element") = true ∧
    startsW (trimBytes (ascii "element tvertex 1")) (ascii "element vertex") = false ∧
    ¬([Property.mk (ascii "float") (ascii "x"), Property.mk (ascii "float") (ascii "y")] =
      [Property.mk (ascii "float") (ascii "x")]) :=
  ⟨by decide, by decide, by decide, by decide⟩

set_option maxRecDepth 100000 in
/-- Claim C7, amended.  The schema collects exactly the property lines
scanned while the vertex-element flag is set, where a line starting
`element vertex` (re)opens the context, an element line not containing
the substring `vertex` closes it, and any other element line — for
example `element tvertex` — leaves it unchanged: the scanned schema
equals the independent `schemaSpec` fold of that rule over the lines. -/
theorem claim_C7_amended (file : List Nat) (h : ScanState)
    (hp : parseHeader file = Except.ok h) :
    h.props = schemaSpec (linesOf file) false := by
  have := scanLines_props (linesOf file) [] _ h hp
  simpa using this

set_option maxRecDepth 100000 in
/-- Claim C7, amended, witness: on `exC7` the scanned schema is the
`schemaSpec` fold, retaining both `x` and `y`. -/
theorem claim_C7_witness : scanC7.props = schemaSpec (linesOf exC7) false :=
  claim_C7_amended exC7 scanC7 (by decide)

/-- Claim C8, confirmed.  After any nonempty sequence of rotate
operations from any state, pitch lies in the closed interval from
`-π/2 + 0.01` to `π/2 - 0.01` (the clamp uses max/min, so the bound
itself is attained — the claim itself says the bound is reached);
from the default state, a rotate with `Δy = 1000` drives pitch exactly
to the clamp bound; and once pitch sits at that bound, further rotates
in the same direction leave it unchanged. -/
theorem claim_C8 :
    (∀ (c : Cam) (ops : List (ℝ × ℝ)), ops ≠ [] →
      (ops.foldl (fun s d => rotateUpd s d.1 d.2) c).pitch ∈
        Set.Icc (-(Real.pi / 2) + 0.01) (Real.pi / 2 - 0.01)) ∧
    (rotateUpd initialCam 0 1000).pitch = -(Real.pi / 2) + 0.01 ∧
    (∀ (c : Cam) (dy : ℝ), 0 ≤ dy → c.pitch = -(Real.pi / 2) + 0.01 →
      (rotateUpd c 0 dy).pitch = c.pitch) := by
  refine ⟨fun c ops h => foldl_rot_mem ops c h, ?_, ?_⟩
  · have h5 : (initialCam.pitch - 1000 * 0.005 : ℝ) = -5 := by
      simp [initialCam]
      norm_num
    simp only [rotateUpd, h5]
    rw [min_eq_right (by nlinarith [Real.pi_gt_three]),
        max_eq_left (by nlinarith [Real.pi_lt_d2])]
  · intro c dy hdy hp
    have hlohi : -(Real.pi / 2) + 0.01 ≤ Real.pi / 2 - 0.01 := by nlinarith [Real.pi_gt_three]
    have hle : c.pitch - dy * 0.005 ≤ c.pitch := by nlinarith
    simp only [rotateUpd, hp] at *
    rw [min_eq_right (by linarith), max_eq_left (by linarith)]

/-- Claim C8, witness: one rotate with `Δy = 1000` from the default
state lands inside the clamp interval. -/
theorem claim_C8_witness :
    ([((0 : ℝ), (1000 : ℝ))].foldl (fun s d => rotateUpd s d.1 d.2) initialCam).pitch ∈
      Set.Icc (-(Real.pi / 2) + 0.01) (Real.pi / 2 - 0.01) :=
  claim_C8.1 initialCam [(0, 1000)] (List.cons_ne_nil _ _)

/-- Claim C9, confirmed.  A pan followed by the pan with negated deltas
restores all three target components exactly in the real-number model
(the basis and pan speed depend only on radius, pitch and yaw, which a
pan never changes, and the target shift is linear in the deltas), hence
within floating tolerance in the implementation. -/
theorem claim_C9 : ∀ (c : Cam) (dx dy : ℝ),
    (panUpd (panUpd c dx dy) (-dx) (-dy)).tx = c.tx ∧
    (panUpd (panUpd c dx dy) (-dx) (-dy)).ty = c.ty ∧
    (panUpd (panUpd c dx dy) (-dx) (-dy)).tz = c.tz := by
  intro c dx dy
  refine ⟨?_, ?_, ?_⟩ <;> (simp only [panUpd]; ring)

/-- Claim C10, confirmed.  A mousemove during a left-button drag leaves
target and radius unchanged; a mousemove during a right-button drag
leaves pitch, yaw and radius unchanged; a wheel event leaves pitch, yaw
and target unchanged; and a mousemove with no drag in progress changes
nothing at all. -/
theorem claim_C10 :
    (∀ (c : Cam) (x y : ℝ), c.isDragging = true → c.dragButton = 0 →
      (step c (.mousemove x y)).tx = c.tx ∧ (step c (.mousemove x y)).ty = c.ty ∧
      (step c (.mousemove x y)).tz = c.tz ∧ (step c (.mousemove x y)).radius = c.radius) ∧
    (∀ (c : Cam) (x y : ℝ), c.isDragging = true → c.dragButton = 2 →
      (step c (.mousemove x y)).pitch = c.pitch ∧ (step c (.mousemove x y)).yaw = c.yaw ∧
      (step c (.mousemove x y)).radius = c.radius) ∧
    (∀ (c : Cam) (d : ℝ),
      (step c (.wheel d)).pitch = c.pitch ∧ (step c (.wheel d)).yaw = c.yaw ∧
      (step c (.wheel d)).tx = c.tx ∧ (step c (.wheel d)).ty = c.ty ∧
      (step c (.wheel d)).tz = c.tz) ∧
    (∀ (c : Cam) (x y : ℝ), c.isDragging = false → step c (.mousemove x y) = c) := by
  refine ⟨?_, ?_, ?_, ?_⟩
  · intro c x y h1 h2
    refine ⟨?_, ?_, ?_, ?_⟩ <;> simp [step, h1, h2, rotateUpd]
  · intro c x y h1 h2
    refine ⟨?_, ?_, ?_⟩ <;> simp [step, h1, h2, panUpd]
  · intro c d
    refine ⟨?_, ?_, ?_, ?_, ?_⟩ <;> simp [step, wheelUpd]
  · intro c x y h1
    simp [step, h1]

/-- Claim C10, witness: the frame conditions instantiated on concrete
armed states and a concrete pointer move. -/
theorem claim_C10_witness :
    ((step camL (Ev.mousemove 3 4)).tx = camL.tx ∧
      (step camL (Ev.mousemove 3 4)).ty = camL.ty ∧
      (step camL (Ev.mousemove 3 4)).tz = camL.tz ∧
      (step camL (Ev.mousemove 3 4)).radius = camL.radius) ∧
    ((step camR (Ev.mousemove 3 4)).pitch = camR.pitch ∧
      (step camR (Ev.mousemove 3 4)).yaw = camR.yaw ∧
      (step camR (Ev.mousemove 3 4)).radius = camR.radius) ∧
    step initialCam (Ev.mousemove 3 4) = initialCam :=
  ⟨claim_C10.1 camL 3 4 rfl rfl, claim_C10.2.1 camR 3 4 rfl rfl,
    claim_C10.2.2.2 initialCam 3 4 rfl⟩

end GSplat
